import Mathlib

/-!
Verification of the mcp-security-hub repository's specified behaviour.

Two parts are developed here:

1. The asynchronous job-management core shared by the custom MCP servers
   (waybackurls, gitleaks, boofuzz, solazy, ...).  The repository snapshot
   under verification ships only the documentation of this core (README
   files listing its tools, status values, environment limits), not its
   implementation, so the core is modelled from the specification: every
   definition in this part carries a doc comment starting with
   `Modelled from the spec:`.

2. The web UI filter of `scripts/templates/app.js` (function
   `filterServers` and the search input handler), embedded directly from
   the JavaScript source.
-/

namespace MCPHub

/-- Modelled from the spec: the job `status` enumeration
`running | completed | failed | timeout | error` (spec section 3; README of
the waybackurls server: "status: completed, running, failed, timeout, or
error").  The implementation of the job core is not in the snapshot. -/
inductive Status where
  | running
  | completed
  | failed
  | timeout
  | error
deriving DecidableEq, Repr

/-- Modelled from the spec: `completed`, `failed`, `timeout` and `error` are
the four terminal states; `running` is the only non-terminal state. -/
def Status.isTerminal : Status → Bool
  | .running => false
  | _ => true

/-- Modelled from the spec: one element of a URL-discovery job's derived
result, carrying the attributes the Stats Aggregator counts over
(protocol, subdomain, file extension, path depth, query parameters). -/
structure UrlItem where
  httpsProtocol : Bool
  subdomain : String
  extension : Option String
  pathDepth : Nat
  hasParams : Bool
deriving DecidableEq, Repr

/-- Modelled from the spec: the Job record of spec section 3 (id, status,
bounded captures with a `truncated` flag, exit code, derived result,
error detail), plus `procRunning` modelling whether the job's external
process (and its children) are still alive. -/
structure Job where
  id : Nat
  status : Status
  stdoutCapture : List Char
  stderrCapture : List Char
  truncated : Bool
  exitCode : Option Int
  derivedResult : Option (List UrlItem)
  errorDetail : Option String
  procRunning : Bool
deriving DecidableEq, Repr

/-- Modelled from the spec: the server configuration limits
(`MAX_CONCURRENT` admission cap, `MAX_TEXT_OUTPUT` capture cap). -/
structure Config where
  maxConcurrent : Nat
  maxTextOutput : Nat
deriving DecidableEq, Repr

/-- Modelled from the spec: the whole server state — the Job Registry
(insertion-ordered list of jobs), the id generator, and the Admission
Controller's bounded counter of free slots (initialised to
`maxConcurrent`, decremented by `tryAcquire`, restored by `release`). -/
structure SysState where
  jobs : List Job
  nextId : Nat
  available : Nat
deriving DecidableEq, Repr

/-- Modelled from the spec: state at process start — empty registry, full
admission capacity. -/
def initState (cfg : Config) : SysState :=
  { jobs := [], nextId := 0, available := cfg.maxConcurrent }

/-- Modelled from the spec: registry lookup by id (first match in
insertion order). -/
def lookupJob (jobs : List Job) (id : Nat) : Option Job :=
  jobs.find? (fun j => decide (j.id = id))

/-- Modelled from the spec: in-place update of the registry entry with the
given id (the entry found by `lookupJob`). -/
def updateFirst (jobs : List Job) (id : Nat) (f : Job → Job) : List Job :=
  match jobs with
  | [] => []
  | j :: rest => if j.id = id then f j :: rest else j :: updateFirst rest id f

/-- Modelled from the spec: the job a registry associates to an id, if any. -/
def jobOf (s : SysState) (id : Nat) : Option Job :=
  lookupJob s.jobs id

/-- Modelled from the spec: the status the registry reports for an id. -/
def statusOf (s : SysState) (id : Nat) : Option Status :=
  (jobOf s id).map Job.status

/-- Modelled from the spec: count of jobs currently in `running` state. -/
def runningCount (s : SysState) : Nat :=
  s.jobs.countP (fun j => decide (j.status = Status.running))

/-- Modelled from the spec: a fresh job record created at admission —
status `running`, empty captures, no exit code, no derived result. -/
def newJob (id : Nat) : Job :=
  { id := id
    status := .running
    stdoutCapture := []
    stderrCapture := []
    truncated := false
    exitCode := none
    derivedResult := none
    errorDetail := none
    procRunning := true }

/-- Modelled from the spec: outcome of a submission — a job id on
admission, `capacityError` on rejection. -/
inductive SubmitOutcome where
  | accepted (id : Nat)
  | capacityError
deriving DecidableEq, Repr

/-- Modelled from the spec: submission.  `tryAcquire()` atomically
checks-and-decrements the free-slot counter; with no capacity the
submission fails immediately with `CapacityError` and no job is created;
otherwise a job is created in `running` state with a fresh id. -/
def submit (s : SysState) : SubmitOutcome × SysState :=
  if s.available = 0 then
    (.capacityError, s)
  else
    (.accepted s.nextId,
      { jobs := s.jobs ++ [newJob s.nextId]
        nextId := s.nextId + 1
        available := s.available - 1 })

/-- Modelled from the spec: incremental output capture, capped at
`maxTextOutput`; bytes beyond the cap are discarded and `truncated` is
set; status and the process itself are untouched. -/
def appendCapture (cap : Nat) (toStdout : Bool) (chunk : List Char) (j : Job) : Job :=
  if toStdout then
    { j with
      stdoutCapture := (j.stdoutCapture ++ chunk).take cap
      truncated := j.truncated || decide (cap < (j.stdoutCapture ++ chunk).length) }
  else
    { j with
      stderrCapture := (j.stderrCapture ++ chunk).take cap
      truncated := j.truncated || decide (cap < (j.stderrCapture ++ chunk).length) }

/-- Modelled from the spec: how a job's process run ends — normal exit
with a code (and, for code 0, the outcome of the derived-result parse
attempt), timeout expiry, or a failure to spawn at all. -/
inductive Outcome where
  | exited (code : Int) (parsed : Option (List UrlItem))
  | timedOut
  | spawnFailed (msg : String)
deriving DecidableEq, Repr

/-- Modelled from the spec: the Execution Worker's terminal transition.
Exit code 0 → `completed` regardless of the parse outcome; non-zero →
`failed` with stderr retained; timeout → `timeout` keeping whatever was
captured; spawn failure → `error`.  Every path stops the process. -/
def finishJob (o : Outcome) (j : Job) : Job :=
  match o with
  | .exited code parsed =>
      if code = 0 then
        { j with
          status := .completed
          exitCode := some code
          derivedResult := parsed
          procRunning := false }
      else
        { j with
          status := .failed
          exitCode := some code
          errorDetail := some "process exited with a non-zero code"
          procRunning := false }
  | .timedOut =>
      { j with
        status := .timeout
        errorDetail := some "timeout expired; process terminated"
        procRunning := false }
  | .spawnFailed msg =>
      { j with
        status := .error
        errorDetail := some msg
        procRunning := false }

/-- Modelled from the spec: the atomic operations on the shared state —
a submission, a worker capturing an output chunk, and a worker's terminal
transition (which releases one admission slot exactly once, guarded by the
job still being `running`). -/
inductive Event where
  | submitJob
  | output (id : Nat) (toStdout : Bool) (chunk : List Char)
  | finish (id : Nat) (o : Outcome)
deriving DecidableEq, Repr

/-- Modelled from the spec: one atomic step of the system. -/
def step (cfg : Config) (s : SysState) (e : Event) : SysState :=
  match e with
  | .submitJob => (submit s).2
  | .output id toStdout chunk =>
      match lookupJob s.jobs id with
      | some j =>
          if j.status = .running then
            { s with jobs := updateFirst s.jobs id (appendCapture cfg.maxTextOutput toStdout chunk) }
          else s
      | none => s
  | .finish id o =>
      match lookupJob s.jobs id with
      | some j =>
          if j.status = .running then
            { s with
              jobs := updateFirst s.jobs id (finishJob o)
              available := s.available + 1 }
          else s
      | none => s

/-- Modelled from the spec: a system run — fold the atomic steps over an
event sequence from the initial state. -/
def run (cfg : Config) (es : List Event) : SysState :=
  List.foldl (step cfg) (initState cfg) es

/-- Modelled from the spec: the Stats Aggregator's summary — counts by
file extension, by subdomain, by path depth, by protocol (https vs http),
and of items carrying query parameters. -/
structure UrlStats where
  byExtension : String → Nat
  bySubdomain : String → Nat
  byPathDepth : Nat → Nat
  httpsCount : Nat
  httpCount : Nat
  withParamsCount : Nat

/-- Modelled from the spec: the Stats Aggregator — a pure function from a
job's full derived item list to the summary counts. -/
def computeStats (items : List UrlItem) : UrlStats :=
  { byExtension := fun e => items.countP (fun i => decide (i.extension = some e))
    bySubdomain := fun sd => items.countP (fun i => decide (i.subdomain = sd))
    byPathDepth := fun d => items.countP (fun i => decide (i.pathDepth = d))
    httpsCount := items.countP (fun i => i.httpsProtocol)
    httpCount := items.countP (fun i => !i.httpsProtocol)
    withParamsCount := items.countP (fun i => i.hasParams) }

/-- Modelled from the spec: the retrieval error for an unknown job id
(`ValidationError` / `NotFound`). -/
inductive RetrievalError where
  | notFound
deriving DecidableEq, Repr

/-- Modelled from the spec: the response of `get_fetch_results` — job id,
status, total item count, stats over the full stored result, and (when
requested) a window of the stored items. -/
structure FetchResponse where
  fetchId : Nat
  status : Status
  totalUrls : Nat
  stats : UrlStats
  urls : Option (List UrlItem)
  truncated : Bool

/-- Modelled from the spec: `get(id)` — the registry read; an unknown id
yields `NotFound`, never a default or empty job. -/
def getJob (s : SysState) (id : Nat) : Except RetrievalError Job :=
  match lookupJob s.jobs id with
  | none => .error .notFound
  | some j => .ok j

/-- Modelled from the spec: `get_fetch_results(id, include_urls, limit)` —
a windowed read of the stored result.  A present `limit` caps the returned
items at `limit`; an absent limit returns the full stored list.  Statistics
and `totalUrls` are always computed from the full stored item list, never
from the returned window.  An unknown id yields `NotFound`. -/
def getFetchResults (s : SysState) (id : Nat) (includeUrls : Bool)
    (limit : Option Nat) : Except RetrievalError FetchResponse :=
  match lookupJob s.jobs id with
  | none => .error .notFound
  | some j =>
      let items := j.derivedResult.getD []
      .ok
        { fetchId := j.id
          status := j.status
          totalUrls := items.length
          stats := computeStats items
          urls :=
            if includeUrls then
              some (match limit with
                    | some n => items.take n
                    | none => items)
            else none
          truncated := j.truncated }

/-- Modelled from the spec: the retrieval operation as a state transformer
— it reads the registry and returns the state unchanged (the read path
never mutates a job or the stored full result). -/
def getFetchResultsOp (s : SysState) (id : Nat) (includeUrls : Bool)
    (limit : Option Nat) : Except RetrievalError FetchResponse × SysState :=
  (getFetchResults s id includeUrls limit, s)

/-- Modelled from the spec: the behaviour of one external process on a
discrete timeline — the stdout chunk it emits in each time unit, how many
units it needs before exiting naturally, its exit code, and the outcome of
the derived-result parse attempt on success. -/
structure ProcSpec where
  chunks : List (List Char)
  duration : Nat
  code : Int
  parsed : Option (List UrlItem)
deriving DecidableEq, Repr

/-- Modelled from the spec: the Execution Worker's timeline for one job —
a wall-clock timeout armed at start.  While the process lives and the
timeout has not expired, each time unit captures one output chunk; if the
process outlives the timeout, the step immediately after expiry terminates
it with `timedOut` (no further capture, no grace beyond that one step);
otherwise the worker records the natural exit. -/
def workerEvents (timeoutSec : Nat) (id : Nat) (p : ProcSpec) : List Event :=
  if p.duration ≤ timeoutSec then
    ((p.chunks.take p.duration).map (fun c => Event.output id true c))
      ++ [Event.finish id (.exited p.code p.parsed)]
  else
    ((p.chunks.take timeoutSec).map (fun c => Event.output id true c))
      ++ [Event.finish id .timedOut]

end MCPHub

namespace WebUI

/-- ASCII lowercasing of a string, the embedding of JavaScript
`toLowerCase()` as used by `app.js` (character-wise `Char.toLower`). -/
def lowerStr (s : String) : String :=
  String.mk (s.toList.map Char.toLower)

/-- Containment of one character sequence in another — the embedding of
JavaScript `String.prototype.includes`. -/
def containsSeq (needle hay : List Char) : Bool :=
  match hay with
  | [] => needle.isEmpty
  | h :: t => List.isPrefixOf needle (h :: t) || containsSeq needle t

/-- `hay.includes(needle)` on strings. -/
def jsIncludes (hay needle : String) : Bool :=
  containsSeq needle.toList hay.toList

/-- One server card of the hub page: its `data-name`, `data-category` and
`data-description` attributes (a missing description is the empty string,
per `card.dataset.description || ''`), and whether the `hidden` CSS class
is currently present. -/
structure ServerCard where
  name : String
  category : String
  description : String
  hidden : Bool
deriving DecidableEq, Repr

/-- The per-card body of `filterServers` (app.js lines 32-48): lowercase
the name and description, test the category match
(`activeCategory === 'all' || category === activeCategory`) and the search
match (`searchQuery === '' || name.includes(searchQuery) ||
description.includes(searchQuery) ||
category.toLowerCase().includes(searchQuery)`), then add or remove the
`hidden` class. -/
def applyCardFilter (activeCategory searchQuery : String) (card : ServerCard) : ServerCard :=
  let name := lowerStr card.name
  let category := card.category
  let description := lowerStr card.description
  let matchesCategory := decide (activeCategory = "all") || decide (category = activeCategory)
  let matchesSearch := decide (searchQuery = "")
    || jsIncludes name searchQuery
    || jsIncludes description searchQuery
    || jsIncludes (lowerStr category) searchQuery
  if matchesCategory && matchesSearch then
    { card with hidden := false }
  else
    { card with hidden := true }

/-- One category section of the page: its server cards and whether the
section itself carries the `hidden` class. -/
structure CategorySection where
  cards : List ServerCard
  hidden : Bool
deriving DecidableEq, Repr

/-- The per-section body of `filterServers` (app.js lines 51-59): filter
the section's cards, then hide the section exactly when it has no visible
card left (`visibleCards.length === 0`). -/
def applySectionFilter (activeCategory searchQuery : String)
    (sec : CategorySection) : CategorySection :=
  let cards := sec.cards.map (applyCardFilter activeCategory searchQuery)
  { cards := cards
    hidden := decide (cards.countP (fun c => !c.hidden) = 0) }

/-- `filterServers` (app.js lines 31-64) over the whole page: every card's
visibility is recomputed from the active category and the search query,
then every section's visibility from its cards. -/
def filterServers (activeCategory searchQuery : String)
    (sections : List CategorySection) : List CategorySection :=
  sections.map (applySectionFilter activeCategory searchQuery)

/-- The search input handler (app.js lines 87-90): the stored query is the
raw input lowercased then trimmed
(`e.target.value.toLowerCase().trim()`). -/
def normalizeQuery (raw : String) : String :=
  (lowerStr raw).trim

/-- Case-insensitive substring, the reading of the claim: the query is a
substring of the field once both are lowercased. -/
def ciSubstr (q s : String) : Prop :=
  containsSeq (lowerStr q).toList (lowerStr s).toList = true

/-- The claim-side visibility predicate: the card is shown exactly when
the active category is `all` or equals the card's category, and the query
is empty or a case-insensitive substring of the card's name, description,
or category. -/
def specCardShown (activeCategory searchQuery : String) (c : ServerCard) : Prop :=
  (activeCategory = "all" ∨ c.category = activeCategory) ∧
    (searchQuery = "" ∨ ciSubstr searchQuery c.name ∨
      ciSubstr searchQuery c.description ∨ ciSubstr searchQuery c.category)

end WebUI

namespace MCPHub

/-- A sample configuration for concrete evaluations: two admission slots,
captures capped at 8 characters. -/
def sampleCfg : Config :=
  { maxConcurrent := 2, maxTextOutput := 8 }

/-- A sample state holding one running job (id 0) and one free slot. -/
def sampleRunning : SysState :=
  { jobs := [newJob 0], nextId := 1, available := 1 }

/-- A sample state at full admission capacity: two running jobs, no free
slot. -/
def sampleFull : SysState :=
  { jobs := [newJob 0, newJob 1], nextId := 2, available := 0 }

/-- A sample discovered URL: an https hit on the `www` subdomain with a
`php` extension. -/
def sampleItem : UrlItem :=
  { httpsProtocol := true, subdomain := "www", extension := some "php",
    pathDepth := 2, hasParams := false }

/-- A second sample discovered URL: an http hit on the `api` subdomain
with no extension and query parameters. -/
def sampleItem2 : UrlItem :=
  { httpsProtocol := false, subdomain := "api", extension := none,
    pathDepth := 1, hasParams := true }

/-- A sample completed job with a stored two-item derived result. -/
def sampleDoneJob : Job :=
  { id := 0, status := .completed, stdoutCapture := [], stderrCapture := [],
    truncated := false, exitCode := some 0,
    derivedResult := some [sampleItem, sampleItem2], errorDetail := none,
    procRunning := false }

/-- A sample state holding only the completed job. -/
def sampleDoneState : SysState :=
  { jobs := [sampleDoneJob], nextId := 1, available := 2 }

/-- A ten-character output chunk, longer than `sampleCfg`'s capture cap. -/
def sampleChunk : List Char :=
  String.toList "0123456789"

/-- A sample process emitting one character per time unit for three units
and then exiting cleanly. -/
def sampleProc : ProcSpec :=
  { chunks := [String.toList "a", String.toList "b", String.toList "c"],
    duration := 3, code := 0, parsed := none }

end MCPHub

namespace WebUI

/-- A sample server card of the hub page. -/
def sampleCard : ServerCard :=
  { name := "Nmap", category := "recon", description := "Port scanning",
    hidden := false }

end WebUI

namespace MCPHub

theorem appendCapture_id (cap : Nat) (b : Bool) (ch : List Char) (j : Job) :
    (appendCapture cap b ch j).id = j.id := by
  unfold appendCapture
  cases b <;> simp

theorem appendCapture_status (cap : Nat) (b : Bool) (ch : List Char) (j : Job) :
    (appendCapture cap b ch j).status = j.status := by
  unfold appendCapture
  cases b <;> simp

theorem appendCapture_procRunning (cap : Nat) (b : Bool) (ch : List Char) (j : Job) :
    (appendCapture cap b ch j).procRunning = j.procRunning := by
  unfold appendCapture
  cases b <;> simp

theorem finishJob_id (o : Outcome) (j : Job) : (finishJob o j).id = j.id := by
  unfold finishJob
  cases o with
  | exited code parsed => by_cases h : code = 0 <;> simp [h]
  | timedOut => simp
  | spawnFailed msg => simp

theorem finishJob_procRunning (o : Outcome) (j : Job) :
    (finishJob o j).procRunning = false := by
  unfold finishJob
  cases o with
  | exited code parsed => by_cases h : code = 0 <;> simp [h]
  | timedOut => simp
  | spawnFailed msg => simp

theorem finishJob_stdout (o : Outcome) (j : Job) :
    (finishJob o j).stdoutCapture = j.stdoutCapture := by
  unfold finishJob
  cases o with
  | exited code parsed => by_cases h : code = 0 <;> simp [h]
  | timedOut => simp
  | spawnFailed msg => simp

theorem finishJob_stderr (o : Outcome) (j : Job) :
    (finishJob o j).stderrCapture = j.stderrCapture := by
  unfold finishJob
  cases o with
  | exited code parsed => by_cases h : code = 0 <;> simp [h]
  | timedOut => simp
  | spawnFailed msg => simp

theorem finishJob_isTerminal (o : Outcome) (j : Job) :
    (finishJob o j).status.isTerminal = true := by
  unfold finishJob
  cases o with
  | exited code parsed => by_cases h : code = 0 <;> simp [h, Status.isTerminal]
  | timedOut => simp [Status.isTerminal]
  | spawnFailed msg => simp [Status.isTerminal]

theorem isTerminal_ne_running {st : Status} (h : st.isTerminal = true) :
    st ≠ Status.running := by
  cases st <;> simp_all [Status.isTerminal]

theorem finishJob_not_running (o : Outcome) (j : Job) :
    (finishJob o j).status ≠ Status.running :=
  isTerminal_ne_running (finishJob_isTerminal o j)

theorem lookupJob_append (l1 l2 : List Job) (id : Nat) :
    lookupJob (l1 ++ l2) id = (lookupJob l1 id).or (lookupJob l2 id) := by
  simp [lookupJob, List.find?_append]

theorem lookupJob_singleton (j : Job) (id : Nat) :
    lookupJob [j] id = if j.id = id then some j else none := by
  by_cases h : j.id = id <;> simp [lookupJob, List.find?, h]

theorem lookupJob_id {jobs : List Job} {id : Nat} {j : Job}
    (h : lookupJob jobs id = some j) : j.id = id := by
  have := List.find?_some h
  simpa using this

theorem lookupJob_updateFirst_self (jobs : List Job) (id : Nat) (f : Job → Job)
    (hid : ∀ j, (f j).id = j.id) :
    lookupJob (updateFirst jobs id f) id = (lookupJob jobs id).map f := by
  induction jobs with
  | nil => simp [lookupJob, updateFirst]
  | cons j rest ih =>
      by_cases h : j.id = id
      · simp [updateFirst, lookupJob, List.find?, h, hid]
      · simp only [updateFirst, h, if_false]
        simp only [lookupJob, List.find?] at ih ⊢
        simp [h, ih]

theorem lookupJob_updateFirst_ne (jobs : List Job) (id id2 : Nat) (f : Job → Job)
    (hid : ∀ j, (f j).id = j.id) (hne : id2 ≠ id) :
    lookupJob (updateFirst jobs id f) id2 = lookupJob jobs id2 := by
  induction jobs with
  | nil => simp [updateFirst]
  | cons j rest ih =>
      by_cases h : j.id = id
      · have h5 : ¬(id = id2) := fun hc => hne hc.symm
        simp [updateFirst, lookupJob, List.find?, h, hid, h5]
      · simp only [updateFirst, h, if_false]
        simp only [lookupJob, List.find?] at ih ⊢
        by_cases h4 : j.id = id2 <;> simp [h4, ih]

theorem countP_updateFirst (jobs : List Job) (id : Nat) (f : Job → Job)
    (p : Job → Bool) {j : Job} (h : lookupJob jobs id = some j) :
    (updateFirst jobs id f).countP p + (if p j then 1 else 0) =
      jobs.countP p + (if p (f j) then 1 else 0) := by
  induction jobs with
  | nil => simp [lookupJob] at h
  | cons a rest ih =>
      by_cases ha : a.id = id
      · have : a = j := by
          simp [lookupJob, List.find?, ha] at h
          exact h
        subst this
        simp [updateFirst, ha, List.countP_cons]
        omega
      · have h2 : lookupJob rest id = some j := by
          simpa [lookupJob, List.find?, ha] using h
        have := ih h2
        simp [updateFirst, ha, List.countP_cons]
        omega

theorem take_append_take (n : Nat) (l l2 : List Char) :
    List.take n (List.take n l ++ l2) = List.take n (l ++ l2) := by
  rcases le_or_lt l.length n with h | h
  · rw [List.take_of_length_le h]
  · rw [List.take_append_eq_append_take, List.take_take,
      List.take_append_eq_append_take]
    simp [Nat.min_eq_left h.le, List.length_take]
    omega

theorem jobOf_step_output (cfg : Config) (s : SysState) (id : Nat) (b : Bool)
    (ch : List Char) {j : Job} (h : jobOf s id = some j)
    (hr : j.status = Status.running) :
    jobOf (step cfg s (.output id b ch)) id =
      some (appendCapture cfg.maxTextOutput b ch j) := by
  unfold jobOf at h ⊢
  simp only [step, h, hr, if_true]
  rw [lookupJob_updateFirst_self _ _ _ (appendCapture_id cfg.maxTextOutput b ch), h]
  rfl

theorem jobOf_step_finish (cfg : Config) (s : SysState) (id : Nat)
    (o : Outcome) {j : Job} (h : jobOf s id = some j)
    (hr : j.status = Status.running) :
    jobOf (step cfg s (.finish id o)) id = some (finishJob o j) := by
  unfold jobOf at h ⊢
  simp only [step, h, hr, if_true]
  rw [lookupJob_updateFirst_self _ _ _ (finishJob_id o), h]
  rfl

theorem mem_updateFirst {jobs : List Job} {id : Nat} {f : Job → Job} {j2 : Job}
    (h : j2 ∈ updateFirst jobs id f) :
    j2 ∈ jobs ∨ ∃ j ∈ jobs, j2 = f j := by
  induction jobs with
  | nil => simp [updateFirst] at h
  | cons a rest ih =>
      by_cases ha : a.id = id
      · simp only [updateFirst, ha, if_true, List.mem_cons] at h
        rcases h with h | h
        · exact Or.inr ⟨a, List.mem_cons_self a rest, h⟩
        · exact Or.inl (List.mem_cons_of_mem a h)
      · simp only [updateFirst, ha, if_false, List.mem_cons] at h
        rcases h with h | h
        · exact Or.inl (by simp [h])
        · rcases ih h with h2 | ⟨j, hj, hj2⟩
          · exact Or.inl (List.mem_cons_of_mem a h2)
          · exact Or.inr ⟨j, List.mem_cons_of_mem a hj, hj2⟩

/-- The Admission Controller invariant: free slots plus running jobs
always equal `maxConcurrent`. -/
def CapInv (cfg : Config) (s : SysState) : Prop :=
  s.available + runningCount s = cfg.maxConcurrent

/-- The capture-bound invariant: every registered job's captures are
within `maxTextOutput`. -/
def CapturesOk (cfg : Config) (s : SysState) : Prop :=
  ∀ j ∈ s.jobs, j.stdoutCapture.length ≤ cfg.maxTextOutput ∧
    j.stderrCapture.length ≤ cfg.maxTextOutput

theorem capInv_init (cfg : Config) : CapInv cfg (initState cfg) := by
  simp [CapInv, initState, runningCount]

theorem capturesOk_init (cfg : Config) : CapturesOk cfg (initState cfg) := by
  simp [CapturesOk, initState]

theorem capInv_step (cfg : Config) (s : SysState) (e : Event)
    (h : CapInv cfg s) : CapInv cfg (step cfg s e) := by
  cases e with
  | submitJob =>
      by_cases ha : s.available = 0
      · simpa [step, submit, ha] using h
      · unfold CapInv runningCount at h ⊢
        simp only [step, submit, ha, if_false]
        simp [List.countP_append, List.countP_cons, newJob]
        omega
  | output id b ch =>
      rcases hl : lookupJob s.jobs id with _ | j
      · simpa [step, hl] using h
      · by_cases hr : j.status = Status.running
        · unfold CapInv runningCount at h ⊢
          simp only [step, hl, hr, if_true]
          have hcnt := countP_updateFirst s.jobs id
            (appendCapture cfg.maxTextOutput b ch)
            (fun j2 => decide (j2.status = Status.running)) hl
          simp [appendCapture_status, hr] at hcnt
          omega
        · simpa [step, hl, hr] using h
  | finish id o =>
      rcases hl : lookupJob s.jobs id with _ | j
      · simpa [step, hl] using h
      · by_cases hr : j.status = Status.running
        · unfold CapInv runningCount at h ⊢
          simp only [step, hl, hr, if_true]
          have hcnt := countP_updateFirst s.jobs id (finishJob o)
            (fun j2 => decide (j2.status = Status.running)) hl
          have hfin : (finishJob o j).status ≠ Status.running :=
            finishJob_not_running o j
          simp [hr, hfin] at hcnt
          omega
        · simpa [step, hl, hr] using h

theorem capturesOk_step (cfg : Config) (s : SysState) (e : Event)
    (h : CapturesOk cfg s) : CapturesOk cfg (step cfg s e) := by
  cases e with
  | submitJob =>
      by_cases ha : s.available = 0
      · simpa [step, submit, ha] using h
      · intro j hj
        simp only [step, submit, ha, if_false, List.mem_append,
          List.mem_singleton] at hj
        rcases hj with hj | hj
        · exact h j hj
        · subst hj
          simp [newJob]
  | output id b ch =>
      rcases hl : lookupJob s.jobs id with _ | j0
      · simpa [step, hl] using h
      · by_cases hr : j0.status = Status.running
        · intro j2 hj2
          simp only [step, hl, hr, if_true] at hj2
          rcases mem_updateFirst hj2 with hm | ⟨j1, hj1, rfl⟩
          · exact h j2 hm
          · have hb := h j1 hj1
            unfold appendCapture
            cases b <;> simp [List.length_take, hb.1, hb.2]
        · simpa [step, hl, hr] using h
  | finish id o =>
      rcases hl : lookupJob s.jobs id with _ | j0
      · simpa [step, hl] using h
      · by_cases hr : j0.status = Status.running
        · intro j2 hj2
          simp only [step, hl, hr, if_true] at hj2
          rcases mem_updateFirst hj2 with hm | ⟨j1, hj1, rfl⟩
          · exact h j2 hm
          · have hb := h j1 hj1
            rw [finishJob_stdout, finishJob_stderr]
            exact hb
        · simpa [step, hl, hr] using h

theorem foldl_preserve (cfg : Config) (P : SysState → Prop)
    (hstep : ∀ s e, P s → P (step cfg s e)) :
    ∀ (es : List Event) (s : SysState), P s → P (List.foldl (step cfg) s es) := by
  intro es
  induction es with
  | nil => intro s h; simpa using h
  | cons e rest ih =>
      intro s h
      exact ih (step cfg s e) (hstep s e h)

theorem capInv_run (cfg : Config) (es : List Event) : CapInv cfg (run cfg es) :=
  foldl_preserve cfg (CapInv cfg) (capInv_step cfg) es (initState cfg) (capInv_init cfg)

theorem capturesOk_run (cfg : Config) (es : List Event) :
    CapturesOk cfg (run cfg es) :=
  foldl_preserve cfg (CapturesOk cfg) (capturesOk_step cfg) es (initState cfg)
    (capturesOk_init cfg)

theorem appendCapture_stdout_true (cap : Nat) (ch : List Char) (j : Job) :
    (appendCapture cap true ch j).stdoutCapture = (j.stdoutCapture ++ ch).take cap := by
  unfold appendCapture
  simp

theorem appendCapture_stderr_true (cap : Nat) (ch : List Char) (j : Job) :
    (appendCapture cap true ch j).stderrCapture = j.stderrCapture := by
  unfold appendCapture
  simp

theorem appendCapture_stderr_false (cap : Nat) (ch : List Char) (j : Job) :
    (appendCapture cap false ch j).stderrCapture = (j.stderrCapture ++ ch).take cap := by
  unfold appendCapture
  simp

theorem appendCapture_stdout_false (cap : Nat) (ch : List Char) (j : Job) :
    (appendCapture cap false ch j).stdoutCapture = j.stdoutCapture := by
  unfold appendCapture
  simp

theorem jobOf_foldl_outputs (cfg : Config) (id : Nat) :
    ∀ (chunks : List (List Char)) (s : SysState) (j : Job),
      jobOf s id = some j → j.status = Status.running →
      j.stdoutCapture.length ≤ cfg.maxTextOutput →
      ∃ j2,
        jobOf (List.foldl (step cfg) s
          (chunks.map (fun c => Event.output id true c))) id = some j2 ∧
        j2.status = Status.running ∧
        j2.stdoutCapture =
          (j.stdoutCapture ++ chunks.flatten).take cfg.maxTextOutput ∧
        j2.stderrCapture = j.stderrCapture ∧
        j2.procRunning = j.procRunning ∧
        j2.stdoutCapture.length ≤ cfg.maxTextOutput := by
  intro chunks
  induction chunks with
  | nil =>
      intro s j h hr hcap
      refine ⟨j, by simpa using h, hr, ?_, rfl, rfl, hcap⟩
      simp [List.take_of_length_le hcap]
  | cons c cs ih =>
      intro s j h hr hcap
      have hstep : jobOf (step cfg s (.output id true c)) id =
          some (appendCapture cfg.maxTextOutput true c j) :=
        jobOf_step_output cfg s id true c h hr
      have hr1 : (appendCapture cfg.maxTextOutput true c j).status =
          Status.running := by
        rw [appendCapture_status]; exact hr
      have hcap1 : (appendCapture cfg.maxTextOutput true c j).stdoutCapture.length ≤
          cfg.maxTextOutput := by
        rw [appendCapture_stdout_true]
        simp [List.length_take]
      obtain ⟨j2, hj2, hrun2, hout2, herr2, hproc2, hcap2⟩ :=
        ih (step cfg s (.output id true c))
          (appendCapture cfg.maxTextOutput true c j) hstep hr1 hcap1
      refine ⟨j2, ?_, hrun2, ?_, ?_, ?_, hcap2⟩
      · simpa using hj2
      · rw [hout2, appendCapture_stdout_true, take_append_take,
          List.append_assoc]
        simp
      · rw [herr2, appendCapture_stderr_true]
      · rw [hproc2, appendCapture_procRunning]

theorem statusOf_eq_of_state_eq {cfg : Config} {s : SysState} {e : Event}
    (h : step cfg s e = s) (id : Nat) :
    statusOf (step cfg s e) id = statusOf s id := by
  rw [h]

/-- C1: for every job, the sequence of status values is a prefix of
`running` followed by exactly one of the four terminal states.  Formally:
every atomic operation either leaves a job's status unchanged or moves it
from `running` to a terminal state (so terminal states are absorbing and
nothing re-enters `running`), and a job that first appears in the registry
appears with status `running`. -/
theorem status_state_machine (cfg : Config) (s : SysState) (e : Event) (id : Nat) :
    (∀ st st', statusOf s id = some st → statusOf (step cfg s e) id = some st' →
        st' = st ∨ (st = Status.running ∧ st'.isTerminal = true)) ∧
    (∀ st', statusOf s id = none → statusOf (step cfg s e) id = some st' →
        st' = Status.running) := by
  cases e with
  | submitJob =>
      by_cases ha : s.available = 0
      · have hs : step cfg s Event.submitJob = s := by simp [step, submit, ha]
        constructor
        · intro st st' h1 h2
          rw [statusOf_eq_of_state_eq hs, h1] at h2
          left
          exact (Option.some_inj.mp h2).symm
        · intro st' h1 h2
          rw [statusOf_eq_of_state_eq hs, h1] at h2
          simp at h2
      · have hjobs : (step cfg s Event.submitJob).jobs =
            s.jobs ++ [newJob s.nextId] := by
          simp [step, submit, ha]
        constructor
        · intro st st' h1 h2
          unfold statusOf jobOf at h1 h2
          rw [hjobs, lookupJob_append] at h2
          rcases hl : lookupJob s.jobs id with _ | j
          · rw [hl] at h1; simp at h1
          · rw [hl] at h1 h2
            simp only [Option.map_some'] at h1
            simp at h2
            left
            rw [← h2]
            exact Option.some_inj.mp h1
        · intro st' h1 h2
          unfold statusOf jobOf at h1 h2
          rw [hjobs, lookupJob_append] at h2
          rcases hl : lookupJob s.jobs id with _ | j
          · rw [hl, Option.none_or, lookupJob_singleton] at h2
            by_cases hn : (newJob s.nextId).id = id
            · rw [if_pos hn] at h2
              simp [newJob] at h2
              exact h2.symm
            · rw [if_neg hn] at h2
              simp at h2
          · rw [hl] at h1; simp at h1
  | output id0 b ch =>
      rcases hl0 : lookupJob s.jobs id0 with _ | j0
      · have hs : step cfg s (.output id0 b ch) = s := by simp [step, hl0]
        constructor
        · intro st st' h1 h2
          rw [statusOf_eq_of_state_eq hs, h1] at h2
          left
          exact (Option.some_inj.mp h2).symm
        · intro st' h1 h2
          rw [statusOf_eq_of_state_eq hs, h1] at h2
          simp at h2
      · by_cases hr : j0.status = Status.running
        · have hjobs : (step cfg s (.output id0 b ch)).jobs =
              updateFirst s.jobs id0 (appendCapture cfg.maxTextOutput b ch) := by
            simp [step, hl0, hr]
          constructor
          · intro st st' h1 h2
            unfold statusOf jobOf at h1 h2
            rw [hjobs] at h2
            by_cases hid : id = id0
            · subst hid
              rw [lookupJob_updateFirst_self _ _ _
                (appendCapture_id cfg.maxTextOutput b ch), hl0] at h2
              rw [hl0] at h1
              simp only [Option.map_some'] at h1 h2
              left
              rw [← Option.some_inj, ← h2, appendCapture_status]
              exact h1
            · rw [lookupJob_updateFirst_ne _ _ _ _
                (appendCapture_id cfg.maxTextOutput b ch) hid, h1] at h2
              left
              exact (Option.some_inj.mp h2).symm
          · intro st' h1 h2
            unfold statusOf jobOf at h1 h2
            rw [hjobs] at h2
            by_cases hid : id = id0
            · subst hid
              rw [hl0] at h1
              simp at h1
            · rw [lookupJob_updateFirst_ne _ _ _ _
                (appendCapture_id cfg.maxTextOutput b ch) hid, h1] at h2
              simp at h2
        · have hs : step cfg s (.output id0 b ch) = s := by
            simp [step, hl0, hr]
          constructor
          · intro st st' h1 h2
            rw [statusOf_eq_of_state_eq hs, h1] at h2
            left
            exact (Option.some_inj.mp h2).symm
          · intro st' h1 h2
            rw [statusOf_eq_of_state_eq hs, h1] at h2
            simp at h2
  | finish id0 o =>
      rcases hl0 : lookupJob s.jobs id0 with _ | j0
      · have hs : step cfg s (.finish id0 o) = s := by simp [step, hl0]
        constructor
        · intro st st' h1 h2
          rw [statusOf_eq_of_state_eq hs, h1] at h2
          left
          exact (Option.some_inj.mp h2).symm
        · intro st' h1 h2
          rw [statusOf_eq_of_state_eq hs, h1] at h2
          simp at h2
      · by_cases hr : j0.status = Status.running
        · have hjobs : (step cfg s (.finish id0 o)).jobs =
              updateFirst s.jobs id0 (finishJob o) := by
            simp [step, hl0, hr]
          constructor
          · intro st st' h1 h2
            unfold statusOf jobOf at h1 h2
            rw [hjobs] at h2
            by_cases hid : id = id0
            · subst hid
              rw [lookupJob_updateFirst_self _ _ _ (finishJob_id o), hl0] at h2
              rw [hl0] at h1
              simp only [Option.map_some'] at h1 h2
              right
              constructor
              · rw [← Option.some_inj.mp h1]
                exact hr
              · rw [← Option.some_inj.mp h2]
                exact finishJob_isTerminal o j0
            · rw [lookupJob_updateFirst_ne _ _ _ _ (finishJob_id o) hid, h1] at h2
              left
              exact (Option.some_inj.mp h2).symm
          · intro st' h1 h2
            unfold statusOf jobOf at h1 h2
            rw [hjobs] at h2
            by_cases hid : id = id0
            · subst hid
              rw [hl0] at h1
              simp at h1
            · rw [lookupJob_updateFirst_ne _ _ _ _ (finishJob_id o) hid, h1] at h2
              simp at h2
        · have hs : step cfg s (.finish id0 o) = s := by
            simp [step, hl0, hr]
          constructor
          · intro st st' h1 h2
            rw [statusOf_eq_of_state_eq hs, h1] at h2
            left
            exact (Option.some_inj.mp h2).symm
          · intro st' h1 h2
            rw [statusOf_eq_of_state_eq hs, h1] at h2
            simp at h2

/-- C8: a job whose process would run longer than the configured timeout
reaches `status=timeout`; the worker's timeline terminates the process in
the very step after expiry (the event list holds exactly `timeoutSec`
capture steps and then the terminal transition), the captures accumulated
so far are retained on the job, and afterwards the process (with its
children, modelled by `procRunning`) is no longer running. -/
theorem timeout_terminates_within_grace (cfg : Config) (s : SysState)
    (id timeoutSec : Nat) (p : ProcSpec) (j : Job)
    (h : jobOf s id = some j) (hr : j.status = Status.running)
    (hcap : j.stdoutCapture.length ≤ cfg.maxTextOutput)
    (hlen : p.chunks.length = p.duration) (hlong : timeoutSec < p.duration) :
    ∃ j2,
      jobOf (List.foldl (step cfg) s (workerEvents timeoutSec id p)) id = some j2 ∧
      j2.status = Status.timeout ∧
      j2.procRunning = false ∧
      j2.stdoutCapture =
        (j.stdoutCapture ++ (p.chunks.take timeoutSec).flatten).take cfg.maxTextOutput ∧
      j2.stderrCapture = j.stderrCapture ∧
      (workerEvents timeoutSec id p).length = timeoutSec + 1 := by
  have hne : ¬p.duration ≤ timeoutSec := by omega
  obtain ⟨j1, hj1, hrun1, hout1, herr1, hproc1, hcap1⟩ :=
    jobOf_foldl_outputs cfg id (p.chunks.take timeoutSec) s j h hr hcap
  have hfin := jobOf_step_finish cfg
    (List.foldl (step cfg) s
      ((p.chunks.take timeoutSec).map (fun c => Event.output id true c)))
    id Outcome.timedOut hj1 hrun1
  refine ⟨finishJob Outcome.timedOut j1, ?_, rfl, rfl, ?_, ?_, ?_⟩
  · unfold workerEvents
    rw [if_neg hne, List.foldl_append]
    simpa using hfin
  · rw [finishJob_stdout]
    exact hout1
  · rw [finishJob_stderr]
    exact herr1
  · unfold workerEvents
    rw [if_neg hne]
    simp [List.length_append, List.length_map, List.length_take, hlen]
    omega

/-- C2: at every reachable state of the system the number of `running`
jobs is at most the configured `maxConcurrent`, and the capacity
invariant (free slots + running jobs = `maxConcurrent`) is preserved by
every atomic operation — submission, worker output, worker completion. -/
theorem running_bounded_by_max_concurrent (cfg : Config) :
    (∀ es : List Event, runningCount (run cfg es) ≤ cfg.maxConcurrent) ∧
    (∀ (s : SysState) (e : Event),
      s.available + runningCount s = cfg.maxConcurrent →
      (step cfg s e).available + runningCount (step cfg s e) = cfg.maxConcurrent ∧
      runningCount (step cfg s e) ≤ cfg.maxConcurrent) := by
  constructor
  · intro es
    have h := capInv_run cfg es
    unfold CapInv at h
    omega
  · intro s e h
    have h2 := capInv_step cfg s e h
    unfold CapInv at h2
    exact ⟨h2, by omega⟩

/-- C3: a submission arriving while `maxConcurrent` jobs are running
fails synchronously with `CapacityError`, creating no job and leaving the
whole state unchanged; and because the check-and-decrement is one atomic
step, of two back-to-back submissions into one remaining slot exactly the
first is admitted and the second is rejected without effect. -/
theorem capacity_error_on_full (cfg : Config) (s : SysState)
    (hinv : s.available + runningCount s = cfg.maxConcurrent) :
    (runningCount s = cfg.maxConcurrent → submit s = (.capacityError, s)) ∧
    (runningCount s + 1 = cfg.maxConcurrent →
      (submit s).1 = SubmitOutcome.accepted s.nextId ∧
      (submit (submit s).2).1 = SubmitOutcome.capacityError ∧
      (submit (submit s).2).2 = (submit s).2) := by
  constructor
  · intro hfull
    have ha : s.available = 0 := by omega
    simp [submit, ha]
  · intro hone
    have ha : s.available = 1 := by omega
    refine ⟨by simp [submit, ha], by simp [submit, ha], by simp [submit, ha]⟩

/-- C4: a running job whose process exits with code 0 is `completed`
whatever the derived-result parse attempt returned (a failed parse leaves
`derivedResult` simply absent, and the status is not `failed`); a non-zero
exit code makes it `failed`, with the captured stderr retained and an
error detail recorded. -/
theorem exit_code_drives_final_status (cfg : Config) (s : SysState) (id : Nat)
    (j : Job) (h : jobOf s id = some j) (hr : j.status = Status.running) :
    (∀ parsed,
      jobOf (step cfg s (.finish id (.exited 0 parsed))) id =
        some (finishJob (.exited 0 parsed) j) ∧
      (finishJob (.exited 0 parsed) j).status = Status.completed ∧
      (finishJob (.exited 0 parsed) j).derivedResult = parsed ∧
      (finishJob (.exited 0 parsed) j).status ≠ Status.failed) ∧
    (∀ (code : Int) (parsed : Option (List UrlItem)), code ≠ 0 →
      jobOf (step cfg s (.finish id (.exited code parsed))) id =
        some (finishJob (.exited code parsed) j) ∧
      (finishJob (.exited code parsed) j).status = Status.failed ∧
      (finishJob (.exited code parsed) j).stderrCapture = j.stderrCapture ∧
      (finishJob (.exited code parsed) j).errorDetail.isSome = true) := by
  constructor
  · intro parsed
    refine ⟨jobOf_step_finish cfg s id _ h hr, ?_, ?_, ?_⟩ <;> simp [finishJob]
  · intro code parsed hc
    refine ⟨jobOf_step_finish cfg s id _ h hr, ?_, ?_, ?_⟩ <;> simp [finishJob, hc]

/-- C5: in every reachable state both captures of every job are at most
`maxTextOutput` long; a capture step stores the capped concatenation and
raises the `truncated` flag whenever bytes beyond the cap were discarded,
and it never changes the job's status or touches the process. -/
theorem captures_bounded (cfg : Config) :
    (∀ es : List Event, ∀ j ∈ (run cfg es).jobs,
      j.stdoutCapture.length ≤ cfg.maxTextOutput ∧
      j.stderrCapture.length ≤ cfg.maxTextOutput) ∧
    (∀ (ch : List Char) (j : Job),
      (appendCapture cfg.maxTextOutput true ch j).status = j.status ∧
      (appendCapture cfg.maxTextOutput true ch j).procRunning = j.procRunning ∧
      (appendCapture cfg.maxTextOutput true ch j).stdoutCapture =
        (j.stdoutCapture ++ ch).take cfg.maxTextOutput ∧
      (cfg.maxTextOutput < (j.stdoutCapture ++ ch).length →
        (appendCapture cfg.maxTextOutput true ch j).truncated = true)) ∧
    (∀ (ch : List Char) (j : Job),
      (appendCapture cfg.maxTextOutput false ch j).status = j.status ∧
      (appendCapture cfg.maxTextOutput false ch j).procRunning = j.procRunning ∧
      (appendCapture cfg.maxTextOutput false ch j).stderrCapture =
        (j.stderrCapture ++ ch).take cfg.maxTextOutput ∧
      (cfg.maxTextOutput < (j.stderrCapture ++ ch).length →
        (appendCapture cfg.maxTextOutput false ch j).truncated = true)) := by
  refine ⟨fun es => capturesOk_run cfg es, ?_, ?_⟩
  · intro ch j
    refine ⟨appendCapture_status _ _ _ _, appendCapture_procRunning _ _ _ _,
      appendCapture_stdout_true _ _ _, ?_⟩
    intro hlt
    unfold appendCapture
    simp
    right
    simpa using hlt
  · intro ch j
    refine ⟨appendCapture_status _ _ _ _, appendCapture_procRunning _ _ _ _,
      appendCapture_stderr_false _ _ _, ?_⟩
    intro hlt
    unfold appendCapture
    simp
    right
    simpa using hlt

/-- C6: for a job with a stored derived result, retrieval with window
limit `n` returns at most `n` items; the retrieval operation leaves the
state (hence the stored full result) unchanged; the reported total and
statistics are computed over the full stored item set, not the window; and
a subsequent retrieval without a limit still answers with the full stored
item list. -/
theorem windowed_retrieval_consistent (s : SysState) (id n : Nat) (j : Job)
    (items : List UrlItem) (h : jobOf s id = some j)
    (hd : j.derivedResult = some items) :
    getFetchResults s id true (some n) =
      .ok { fetchId := j.id
            status := j.status
            totalUrls := items.length
            stats := computeStats items
            urls := some (items.take n)
            truncated := j.truncated } ∧
    (items.take n).length ≤ n ∧
    (getFetchResultsOp s id true (some n)).2 = s ∧
    getFetchResults (getFetchResultsOp s id true (some n)).2 id true none =
      .ok { fetchId := j.id
            status := j.status
            totalUrls := items.length
            stats := computeStats items
            urls := some items
            truncated := j.truncated } := by
  unfold jobOf at h
  refine ⟨?_, ?_, rfl, ?_⟩
  · simp [getFetchResults, h, hd]
  · simp [List.length_take]
  · simp [getFetchResultsOp, getFetchResults, h, hd]

/-- C7: the Stats Aggregator is a pure function of the item list whose
output is invariant under permutation of its input, and the retrieval path
computing it returns the state — hence the stored result, in its stored
order — unchanged. -/
theorem stats_permutation_invariant :
    (∀ l1 l2 : List UrlItem, l1.Perm l2 → computeStats l1 = computeStats l2) ∧
    (∀ (s : SysState) (id : Nat) (b : Bool) (lim : Option Nat),
      (getFetchResultsOp s id b lim).2 = s) := by
  constructor
  · intro l1 l2 hperm
    simp only [computeStats, UrlStats.mk.injEq]
    exact ⟨funext fun e => hperm.countP_eq _, funext fun sd => hperm.countP_eq _,
      funext fun d => hperm.countP_eq _, hperm.countP_eq _, hperm.countP_eq _,
      hperm.countP_eq _⟩
  · intro s id b lim
    rfl

/-- C9: retrieval on an id not present in the registry answers `NotFound`
— both the registry read and `get_fetch_results` — and any two absent ids
(in particular one in a fresh registry, i.e. never issued) are
observationally indistinguishable: both retrieval operations answer
identically on them. -/
theorem unknown_id_not_found (s s2 : SysState) (id id2 : Nat) (b : Bool)
    (lim : Option Nat) (cfg : Config) (id3 : Nat)
    (h : jobOf s id = none) (h2 : jobOf s2 id2 = none) :
    getJob s id = .error RetrievalError.notFound ∧
    getFetchResults s id b lim = .error RetrievalError.notFound ∧
    getJob s id = getJob s2 id2 ∧
    getFetchResults s id b lim = getFetchResults s2 id2 b lim ∧
    jobOf (initState cfg) id3 = none := by
  unfold jobOf lookupJob at h h2
  refine ⟨?_, ?_, ?_, ?_, ?_⟩ <;>
    simp [getJob, getFetchResults, lookupJob, h, h2, jobOf, initState]

end MCPHub

namespace WebUI

theorem applyCardFilter_update (a q : String) (c : ServerCard) :
    applyCardFilter a q c =
      { c with hidden := !((decide (a = "all") || decide (c.category = a)) &&
          (decide (q = "") || jsIncludes (lowerStr c.name) q
            || jsIncludes (lowerStr c.description) q
            || jsIncludes (lowerStr c.category) q)) } := by
  simp only [applyCardFilter]
  split
  · next h =>
      rw [h]
      rfl
  · next h =>
      have h2 := Bool.eq_false_iff.mpr h
      rw [h2]
      rfl

theorem applyCardFilter_idem (a q : String) (c : ServerCard) :
    applyCardFilter a q (applyCardFilter a q c) = applyCardFilter a q c := by
  rw [applyCardFilter_update a q c, applyCardFilter_update]

theorem applySectionFilter_idem (a q : String) (sec : CategorySection) :
    applySectionFilter a q (applySectionFilter a q sec) =
      applySectionFilter a q sec := by
  unfold applySectionFilter
  have hmap : (sec.cards.map (applyCardFilter a q)).map (applyCardFilter a q) =
      sec.cards.map (applyCardFilter a q) := by
    rw [List.map_map]
    apply List.map_congr_left
    intro c _
    exact applyCardFilter_idem a q c
  simp only
  rw [hmap]

/-- C10: in the web UI filter, a server card is shown exactly when the
active category is `all` or equals the card's category, and the query is
empty or a case-insensitive substring of the card's name, description, or
category (the query being lowercase, as the input handler guarantees); a
category section is hidden exactly when all of its cards are hidden; and
running `filterServers` twice with the same active category and query
yields the same visibility state as running it once. -/
theorem filter_servers_correct (a q : String) (secs : List CategorySection)
    (hq : lowerStr q = q) :
    (∀ c : ServerCard,
      ((applyCardFilter a q c).hidden = false ↔ specCardShown a q c)) ∧
    (∀ sec : CategorySection,
      ((applySectionFilter a q sec).hidden = true ↔
        ∀ c ∈ (applySectionFilter a q sec).cards, c.hidden = true)) ∧
    filterServers a q (filterServers a q secs) = filterServers a q secs := by
  refine ⟨?_, ?_, ?_⟩
  · intro c
    rw [applyCardFilter_update]
    simp only [specCardShown, ciSubstr, jsIncludes, hq]
    simp
    cases hx : containsSeq q.data (lowerStr c.name).data <;>
      cases hy : containsSeq q.data (lowerStr c.description).data <;>
        cases hz : containsSeq q.data (lowerStr c.category).data <;>
          simp_all <;> tauto
  · intro sec
    unfold applySectionFilter
    simp [List.countP_eq_zero]
  · unfold filterServers
    rw [List.map_map]
    apply List.map_congr_left
    intro sec _
    simp only [Function.comp_apply]
    exact applySectionFilter_idem a q sec

end WebUI

namespace MCPHub

/-- Concrete instance of C1: the running job 0 of `sampleRunning` moves to
`timeout` on a finish event, a `running` → terminal transition. -/
theorem status_state_machine_witness :
    statusOf sampleRunning 0 = some Status.running ∧
    statusOf (step sampleCfg sampleRunning (Event.finish 0 Outcome.timedOut)) 0 =
      some Status.timeout ∧
    (Status.timeout = Status.running ∨
      (Status.running = Status.running ∧ Status.timeout.isTerminal = true)) :=
  ⟨by decide, by decide,
    (status_state_machine sampleCfg sampleRunning
      (Event.finish 0 Outcome.timedOut) 0).1 Status.running Status.timeout
      (by decide) (by decide)⟩

/-- Concrete instance of C2: the capacity invariant holds in
`sampleRunning` and is preserved by a submission step. -/
theorem running_bounded_by_max_concurrent_witness :
    sampleRunning.available + runningCount sampleRunning =
      sampleCfg.maxConcurrent ∧
    ((step sampleCfg sampleRunning Event.submitJob).available +
        runningCount (step sampleCfg sampleRunning Event.submitJob) =
          sampleCfg.maxConcurrent ∧
      runningCount (step sampleCfg sampleRunning Event.submitJob) ≤
        sampleCfg.maxConcurrent) :=
  ⟨by decide,
    (running_bounded_by_max_concurrent sampleCfg).2 sampleRunning
      Event.submitJob (by decide)⟩

/-- Concrete instance of C3: at full capacity (`sampleFull`) a submission
returns `CapacityError` and leaves the state unchanged. -/
theorem capacity_error_on_full_witness :
    sampleFull.available + runningCount sampleFull = sampleCfg.maxConcurrent ∧
    runningCount sampleFull = sampleCfg.maxConcurrent ∧
    submit sampleFull = (SubmitOutcome.capacityError, sampleFull) :=
  ⟨by decide, by decide,
    (capacity_error_on_full sampleCfg sampleFull (by decide)).1 (by decide)⟩

/-- Concrete instance of C4: finishing job 0 of `sampleRunning` with exit
code 0 and a failed parse still completes it, with no derived result. -/
theorem exit_code_drives_final_status_witness :
    jobOf sampleRunning 0 = some (newJob 0) ∧
    (newJob 0).status = Status.running ∧
    ((finishJob (.exited 0 none) (newJob 0)).status = Status.completed ∧
      (finishJob (.exited 0 none) (newJob 0)).derivedResult = none ∧
      (finishJob (.exited 1 none) (newJob 0)).status = Status.failed) :=
  ⟨by decide, by decide,
    ((exit_code_drives_final_status sampleCfg sampleRunning 0 (newJob 0)
        (by decide) (by decide)).1 none).2.1,
    ((exit_code_drives_final_status sampleCfg sampleRunning 0 (newJob 0)
        (by decide) (by decide)).1 none).2.2.1,
    ((exit_code_drives_final_status sampleCfg sampleRunning 0 (newJob 0)
        (by decide) (by decide)).2 1 none (by decide)).2.1⟩

/-- Concrete instance of C5: the job created by one submission is within
the capture caps, and appending a ten-character chunk past the 8-character
cap sets the `truncated` flag. -/
theorem captures_bounded_witness :
    newJob 0 ∈ (run sampleCfg [Event.submitJob]).jobs ∧
    ((newJob 0).stdoutCapture.length ≤ sampleCfg.maxTextOutput ∧
      (newJob 0).stderrCapture.length ≤ sampleCfg.maxTextOutput) ∧
    sampleCfg.maxTextOutput < ((newJob 0).stdoutCapture ++ sampleChunk).length ∧
    (appendCapture sampleCfg.maxTextOutput true sampleChunk (newJob 0)).truncated =
      true :=
  ⟨by decide,
    (captures_bounded sampleCfg).1 [Event.submitJob] (newJob 0) (by decide),
    by decide,
    ((captures_bounded sampleCfg).2.1 sampleChunk (newJob 0)).2.2.2 (by decide)⟩

/-- Concrete instance of C6: windowed retrieval with limit 1 over the
two-item stored result of `sampleDoneState` returns at most one item and
does not mutate the state. -/
theorem windowed_retrieval_consistent_witness :
    jobOf sampleDoneState 0 = some sampleDoneJob ∧
    sampleDoneJob.derivedResult = some [sampleItem, sampleItem2] ∧
    ([sampleItem, sampleItem2].take 1).length ≤ 1 ∧
    (getFetchResultsOp sampleDoneState 0 true (some 1)).2 = sampleDoneState :=
  ⟨by decide, by decide,
    (windowed_retrieval_consistent sampleDoneState 0 1 sampleDoneJob
      [sampleItem, sampleItem2] (by decide) (by decide)).2.1,
    (windowed_retrieval_consistent sampleDoneState 0 1 sampleDoneJob
      [sampleItem, sampleItem2] (by decide) (by decide)).2.2.1⟩

/-- Concrete instance of C7: swapping the two sample items leaves the
aggregated statistics unchanged. -/
theorem stats_permutation_invariant_witness :
    [sampleItem, sampleItem2].Perm [sampleItem2, sampleItem] ∧
    computeStats [sampleItem, sampleItem2] =
      computeStats [sampleItem2, sampleItem] :=
  ⟨List.Perm.swap sampleItem2 sampleItem [],
    stats_permutation_invariant.1 [sampleItem, sampleItem2]
      [sampleItem2, sampleItem] (List.Perm.swap sampleItem2 sampleItem [])⟩

/-- Concrete instance of C8: a three-unit process under a one-unit timeout
in `sampleRunning` ends in `timeout` with its one captured chunk retained
and the process stopped. -/
theorem timeout_terminates_within_grace_witness :
    jobOf sampleRunning 0 = some (newJob 0) ∧
    (newJob 0).status = Status.running ∧
    (newJob 0).stdoutCapture.length ≤ sampleCfg.maxTextOutput ∧
    sampleProc.chunks.length = sampleProc.duration ∧
    1 < sampleProc.duration ∧
    ∃ j2,
      jobOf (List.foldl (step sampleCfg) sampleRunning
        (workerEvents 1 0 sampleProc)) 0 = some j2 ∧
      j2.status = Status.timeout ∧
      j2.procRunning = false ∧
      j2.stdoutCapture =
        ((newJob 0).stdoutCapture ++
          (sampleProc.chunks.take 1).flatten).take sampleCfg.maxTextOutput ∧
      j2.stderrCapture = (newJob 0).stderrCapture ∧
      (workerEvents 1 0 sampleProc).length = 1 + 1 :=
  ⟨by decide, by decide, by decide, by decide, by decide,
    timeout_terminates_within_grace sampleCfg sampleRunning 0 1 sampleProc
      (newJob 0) (by decide) (by decide) (by decide) (by decide) (by decide)⟩

/-- Concrete instance of C9: an id absent from `sampleDoneState` and an id
in a fresh registry both answer `NotFound` and identically. -/
theorem unknown_id_not_found_witness :
    jobOf sampleDoneState 5 = none ∧
    jobOf (initState sampleCfg) 0 = none ∧
    getJob sampleDoneState 5 = .error RetrievalError.notFound ∧
    getJob sampleDoneState 5 = getJob (initState sampleCfg) 0 :=
  ⟨by decide, by decide,
    (unknown_id_not_found sampleDoneState (initState sampleCfg) 5 0 true none
      sampleCfg 0 (by decide) (by decide)).1,
    (unknown_id_not_found sampleDoneState (initState sampleCfg) 5 0 true none
      sampleCfg 0 (by decide) (by decide)).2.2.1⟩

end MCPHub

namespace WebUI

/-- Concrete instance of C10: with the lowercase query `nmap` and the
category filter `all`, the sample card's computed visibility matches the
claim's predicate. -/
theorem filter_servers_correct_witness :
    lowerStr "nmap" = "nmap" ∧
    ((applyCardFilter "all" "nmap" sampleCard).hidden = false ↔
      specCardShown "all" "nmap" sampleCard) :=
  ⟨by decide,
    (filter_servers_correct "all" "nmap" [] (by decide)).1 sampleCard⟩

end WebUI
